import Mathlib

/-!
Verification of the signal aggregation and alert-dispatch engine of the
money-signal-ai-polygon-v2 repository.

Shallow embedding conventions:
* Python `float` values (convictions, prices, timestamps) are modelled as `ℚ`
  with exact arithmetic; Python strings as `String`; Python `None`able values
  as `Option`.
* The repository ships two historical `Signal` shapes.  `core/models.py`
  declares the fields `kind, symbol, direction, conviction, reasons, extra`,
  while the bots construct — and `core/aggregator.py` reads — the fields
  `bot, symbol, direction, conviction, reasons, timeframe, risk_tag, price,
  extra`.  The `Signal` structure below carries the union of both shapes,
  with `kind : Option String` recording that the attribute is present only on
  the `models.py` variant: sites in `core/alerting.py` that read it through
  `getattr(signal, "kind", "GENERIC")` are modelled with `Option.getD`.
* Python exception flow is modelled in the `Except` monad: a `try/except`
  handler maps the error case back to `Except.ok`.
* Python `dict`s are modelled as insertion-ordered association lists
  (`List (String × String)` for `Signal.extra`) or as lookup functions
  (the `_last_sent` table of the dispatcher).
-/

/-- The union of the two historical `Signal` shapes (see module comment).
`extra` values are uninterpreted by the core and modelled as strings. -/
structure Signal where
  kind : Option String
  bot : String
  symbol : String
  direction : String
  conviction : ℚ
  reasons : List String
  timeframe : String
  risk_tag : String
  price : Option ℚ
  extra : List (String × String)
deriving DecidableEq, Repr

/-- MarketContext from `core/models.py`: `as_of` is a timestamp (unused by the
aggregator), `trend`/`vol_regime` are free-form strings, `risk_off` a bool. -/
structure MarketContext where
  as_of : ℚ
  trend : String
  vol_regime : String
  risk_off : Bool
deriving DecidableEq, Repr

/-- The inline clamp `max(0.0, min(1.0, p))` from
`core/aggregator.py:_combine_convictions` (line 14). -/
def clamp01 (p : ℚ) : ℚ := max 0 (min 1 p)

/-- Embeds `core/aggregator.py:_combine_convictions` (lines 10–16): noisy-OR
`1 − Π(1 − clamp(pᵢ))`, computed by a running product starting at 1. -/
def _combine_convictions (convictions : List ℚ) : ℚ :=
  1 - convictions.foldl (fun prob_not p => prob_not * (1 - clamp01 p)) 1

/-- The inner reason-merge loop of `core/aggregator.py:aggregate_signals`
(lines 37–40): visit the reasons of each member in order, appending any reason
string not already present. -/
def merge_reasons (reasonLists : List (List String)) : List String :=
  reasonLists.foldl
    (fun reasons rs =>
      rs.foldl (fun acc r => if r ∈ acc then acc else acc ++ [r]) reasons)
    []

/-- The price-selection loop of `core/aggregator.py:aggregate_signals`
(lines 41–42): `if s.price is not None: price = s.price` — the last
non-`None` price in visiting order wins. -/
def last_price (group : List Signal) : Option ℚ :=
  group.foldl
    (fun price s => match s.price with
      | none => price
      | some p => some p)
    none

/-- Python `dict` assignment `d[k] = v` on an insertion-ordered association
list: overwrite in place if the key exists, else append. -/
def dict_set (d : List (String × String)) (k v : String) :
    List (String × String) :=
  if d.any (fun kv => kv.1 = k) then
    d.map (fun kv => if kv.1 = k then (k, v) else kv)
  else
    d ++ [(k, v)]

/-- The metadata-merge loop of `core/aggregator.py:aggregate_signals`
(lines 43–44): `extra_combined[f"{s.bot}.{k}"] = v` for each member. -/
def merge_extra (group : List Signal) : List (String × String) :=
  group.foldl
    (fun acc s =>
      s.extra.foldl (fun a kv => dict_set a (s.bot ++ "." ++ kv.1) kv.2) acc)
    []

/-- Embeds `bots = sorted({s.bot for s in group})` joined with `"+"`
(`core/aggregator.py` lines 34 and 56). -/
def bots_label (group : List Signal) : String :=
  String.intercalate "+" (((group.map (fun s => s.bot)).dedup).insertionSort (· ≤ ·))

/-- The `(symbol, direction)` keys of the `defaultdict` grouping of
`core/aggregator.py:aggregate_signals` (lines 20–22), in first-appearance
order — Python dicts iterate in insertion order. -/
def keys_in_order (signals : List Signal) : List (String × String) :=
  signals.foldl
    (fun acc s =>
      if (s.symbol, s.direction) ∈ acc then acc else acc ++ [(s.symbol, s.direction)])
    []

/-- The members appended to a grouping key, in input order. -/
def group_of (signals : List Signal) (key : String × String) : List Signal :=
  signals.filter (fun s => (s.symbol, s.direction) = key)

/-- The per-group body of `core/aggregator.py:aggregate_signals`
(lines 26–66): combine convictions, merge content, then apply the two regime
gates and the global conviction floor.  `none` means the group is dropped.
The empty-group branch is unreachable (every key has at least one member).
The merged Signal is constructed without a `kind` attribute (`kind := none`). -/
def process_group (ctx : MarketContext) (min_conviction : ℚ)
    (key : String × String) (group : List Signal) : Option Signal :=
  match group with
  | [] => none
  | g0 :: _ =>
    let combined_conviction := _combine_convictions (group.map (fun s => s.conviction))
    let reasons := merge_reasons (group.map (fun s => s.reasons))
    let price := last_price group
    if ctx.risk_off = true ∧ key.2 = "bull" ∧ combined_conviction < 7/10 then
      none
    else if ctx.trend = "bull" ∧ key.2 = "bear" ∧ combined_conviction < 3/5 then
      none
    else if combined_conviction < min_conviction then
      none
    else
      some { kind := none
             bot := bots_label group
             symbol := key.1
             direction := key.2
             conviction := combined_conviction
             reasons := reasons
             timeframe := g0.timeframe
             risk_tag := g0.risk_tag
             price := price
             extra := merge_extra group }

/-- Embeds `core/aggregator.py:aggregate_signals` (lines 19–68).  The default
`min_conviction=0.4` of the source is passed explicitly as `2/5` at call sites. -/
def aggregate_signals (signals : List Signal) (ctx : MarketContext)
    (min_conviction : ℚ) : List Signal :=
  (keys_in_order signals).filterMap
    (fun key => process_group ctx min_conviction key (group_of signals key))

/-! ## Bus (`core/bus.py`) -/

/-- Embeds `core/bus.py:SignalBus`: the in-memory `_signals` buffer. -/
structure SignalBus where
  _signals : List Signal

/-- Embeds `SignalBus.publish` (lines 15–16): append to the buffer. -/
def SignalBus.publish (bus : SignalBus) (signal : Signal) : SignalBus :=
  { _signals := bus._signals ++ [signal] }

/-- Embeds `SignalBus.drain` (lines 18–21): return the accumulated list and install
a fresh empty buffer. -/
def SignalBus.drain (bus : SignalBus) : List Signal × SignalBus :=
  (bus._signals, { _signals := [] })

/-! ## Alerting (`core/alerting.py`) -/

/-- Embeds `core/alerting.py:TelegramConfig`. -/
structure TelegramConfig where
  bot_token : String
  chat_id : String
deriving DecidableEq, Repr

/-- Embeds `core/alerting.py:send_telegram_message` (lines 23–47).  The HTTP call
and its `raise_for_status` are the external transport, supplied here as an
`Except` outcome; the source wraps them in `try/except Exception`, logging
and swallowing any error, so both outcomes return normally.  An empty
`bot_token` or `chat_id` (falsy in Python) skips the send. -/
def send_telegram_message (cfg : TelegramConfig) (text : String)
    (transport : Except String Unit) : Except String Unit :=
  if cfg.bot_token = "" ∨ cfg.chat_id = "" then
    Except.ok ()
  else
    match transport with
    | Except.ok _ => Except.ok ()
    | Except.error _ => Except.ok ()

/-- Embeds the `core/alerting.py:Dispatcher` state: config, cooldown interval (clamped
non-negative in `__init__`), and the `_last_sent` dict keyed by
`(symbol, direction, kind)`. -/
structure Dispatcher where
  tg_config : TelegramConfig
  min_alert_interval_seconds : Int
  _last_sent : String × String × String → Option ℚ

/-- Embeds `Dispatcher.__init__` (lines 60–66):
`max(0, int(min_alert_interval_seconds or 0))`, empty `_last_sent`. -/
def Dispatcher.init (cfg : TelegramConfig) (interval : Int) : Dispatcher :=
  { tg_config := cfg
    min_alert_interval_seconds := max 0 interval
    _last_sent := fun _ => none }

/-- Embeds `Dispatcher._key_for_signal` (lines 70–74): `getattr` with defaults —
`symbol` and `direction` exist on every Signal variant, `kind` only on the
`models.py` variant, hence `Option.getD "GENERIC"`. -/
def Dispatcher._key_for_signal (signal : Signal) : String × String × String :=
  (signal.symbol, signal.direction, signal.kind.getD "GENERIC")

/-- Embeds the dict assignment `d._last_sent[key] = now`. -/
def Dispatcher.set_last (d : Dispatcher) (key : String × String × String)
    (now : ℚ) : Dispatcher :=
  { d with _last_sent := fun k => if k = key then some now else d._last_sent k }

/-- Embeds `Dispatcher._should_send` (lines 76–90), with the wall clock
`time.time()` passed explicitly as `now`.  Returns the decision together
with the (possibly updated) dispatcher state: inside the cooldown window
nothing is mutated; otherwise `_last_sent[key]` is stamped with `now`
before any send is attempted. -/
def Dispatcher._should_send (d : Dispatcher) (signal : Signal) (now : ℚ) :
    Bool × Dispatcher :=
  if d.min_alert_interval_seconds ≤ 0 then
    (true, d)
  else
    let key := Dispatcher._key_for_signal signal
    match d._last_sent key with
    | some last_ts =>
      if now - last_ts < (d.min_alert_interval_seconds : ℚ) then
        (false, d)
      else
        (true, d.set_last key now)
    | none => (true, d.set_last key now)

/-- Embeds `Dispatcher._format_signal` (lines 94–132), modelled coarsely: the
emoji lookup, header, reason bullets and context line are assembled as
strings; the `%.2f` conviction formatting and the options-play block are
not modelled (no claim inspects the message text).  The source interpolates
`signal.kind` directly, which on a kind-less Signal variant would raise;
here it is read as `Option.getD "GENERIC"` like the key function. -/
def Dispatcher._format_signal (signal : Signal) (ctx : MarketContext) : String :=
  let emoji := if signal.direction = "bull" then "g"
    else if signal.direction = "bear" then "r" else "n"
  let header := emoji ++ " *" ++ signal.kind.getD "GENERIC" ++ "* on *" ++
    signal.symbol ++ "*"
  let body := String.intercalate "\n" (signal.reasons.map (fun r => "- " ++ r))
  let ctx_line := "Market: trend=" ++ ctx.trend ++ ", vol=" ++ ctx.vol_regime ++
    ", risk_off=" ++ (if ctx.risk_off then "True" else "False")
  header ++ "\n" ++ body ++ ctx_line

/-- Embeds `Dispatcher.dispatch` (lines 136–145) in the `Except` monad.  The
transport outcome for this attempt is a parameter; a send error, were it
ever returned by `send_telegram_message`, would propagate.  The result
carries the new dispatcher state and whether a send was attempted. -/
def Dispatcher.dispatch (d : Dispatcher) (signal : Signal) (ctx : MarketContext)
    (now : ℚ) (transport : Except String Unit) :
    Except String (Dispatcher × Bool) :=
  match Dispatcher._should_send d signal now with
  | (false, d') => Except.ok (d', false)
  | (true, d') =>
    match send_telegram_message d'.tg_config
        (Dispatcher._format_signal signal ctx) transport with
    | Except.ok _ => Except.ok (d', true)
    | Except.error e => Except.error e

/-! ## Basic lemmas about the noisy-OR combination -/

lemma clamp01_nonneg (p : ℚ) : 0 ≤ clamp01 p := le_max_left 0 _

lemma clamp01_le_one (p : ℚ) : clamp01 p ≤ 1 := by
  unfold clamp01
  exact max_le (by norm_num) (min_le_left 1 p)

lemma clamp01_mono {p q : ℚ} (h : p ≤ q) : clamp01 p ≤ clamp01 q := by
  unfold clamp01
  exact max_le_max le_rfl (min_le_min le_rfl h)

lemma clamp01_eq_self {p : ℚ} (h0 : 0 ≤ p) (h1 : p ≤ 1) : clamp01 p = p := by
  unfold clamp01
  rw [min_eq_right h1, max_eq_right h0]

lemma combine_foldl (l : List ℚ) (a : ℚ) :
    l.foldl (fun prob_not p => prob_not * (1 - clamp01 p)) a
      = a * (l.map (fun p => 1 - clamp01 p)).prod := by
  induction l generalizing a with
  | nil => simp
  | cons p l ih => simp [ih, mul_assoc]

lemma _combine_convictions_eq (l : List ℚ) :
    _combine_convictions l = 1 - (l.map (fun p => 1 - clamp01 p)).prod := by
  simp [_combine_convictions, combine_foldl]

lemma prob_not_nonneg (l : List ℚ) :
    0 ≤ (l.map (fun p => 1 - clamp01 p)).prod := by
  induction l with
  | nil => simp
  | cons p l ih =>
    simp only [List.map_cons, List.prod_cons]
    have h1 : (0:ℚ) ≤ 1 - clamp01 p := by
      have := clamp01_le_one p
      linarith
    exact mul_nonneg h1 ih

lemma prob_not_le_one (l : List ℚ) :
    (l.map (fun p => 1 - clamp01 p)).prod ≤ 1 := by
  induction l with
  | nil => simp
  | cons p l ih =>
    simp only [List.map_cons, List.prod_cons]
    have h1 : (1:ℚ) - clamp01 p ≤ 1 := by
      have := clamp01_nonneg p
      linarith
    have h0 : (0:ℚ) ≤ 1 - clamp01 p := by
      have := clamp01_le_one p
      linarith
    calc (1 - clamp01 p) * (l.map (fun p => 1 - clamp01 p)).prod
        ≤ 1 * 1 := mul_le_mul h1 ih (prob_not_nonneg l) (by norm_num)
      _ = 1 := by norm_num

lemma _combine_convictions_nonneg (l : List ℚ) : 0 ≤ _combine_convictions l := by
  rw [_combine_convictions_eq]
  have := prob_not_le_one l
  linarith

lemma _combine_convictions_le_one (l : List ℚ) : _combine_convictions l ≤ 1 := by
  rw [_combine_convictions_eq]
  have := prob_not_nonneg l
  linarith

/-! ## Claims C5 and C6: algebra of the conviction combination -/

/-- C5: conviction combination satisfies the singleton identity — for every
`p ∈ [0,1]`, `_combine_convictions [p] = p`, the own conviction of the signal
unchanged. -/
theorem combine_singleton_identity (p : ℚ) (h0 : 0 ≤ p) (h1 : p ≤ 1) :
    _combine_convictions [p] = p := by
  rw [_combine_convictions_eq]
  simp [clamp01_eq_self h0 h1]

/-- Witness for C5 at `p = 1/2`. -/
theorem combine_singleton_identity_witness :
    _combine_convictions [1/2] = 1/2 :=
  combine_singleton_identity (1/2) (by norm_num) (by norm_num)

/-- C6: the combination `1 − Π(1 − pᵢ)` is order-independent (invariant
under every permutation of the input list), monotonically non-decreasing in
each input, never decreased by adding an input, and on the examples of the spec
`combine [0.5,0.3] = combine [0.3,0.5]` and
`combine [0.5,0.3,0.2] = 0.72`. -/
theorem combine_monotone_order_independent :
    (∀ (l l' : List ℚ), l.Perm l' →
      _combine_convictions l = _combine_convictions l') ∧
    (∀ (pre suf : List ℚ) (p q : ℚ), p ≤ q →
      _combine_convictions (pre ++ p :: suf) ≤
        _combine_convictions (pre ++ q :: suf)) ∧
    (∀ (l : List ℚ) (p : ℚ),
      _combine_convictions l ≤ _combine_convictions (l ++ [p])) ∧
    _combine_convictions [1/2, 3/10] = _combine_convictions [3/10, 1/2] ∧
    _combine_convictions [1/2, 3/10, 1/5] = 72/100 := by
  refine ⟨?_, ?_, ?_, ?_, ?_⟩
  · intro l l' hperm
    rw [_combine_convictions_eq, _combine_convictions_eq,
      (hperm.map (fun p => 1 - clamp01 p)).prod_eq]
  · intro pre suf p q hpq
    rw [_combine_convictions_eq, _combine_convictions_eq]
    have hfac : 1 - clamp01 q ≤ 1 - clamp01 p := by
      have := clamp01_mono hpq
      linarith
    have hq0 : (0:ℚ) ≤ 1 - clamp01 q := by
      have := clamp01_le_one q
      linarith
    have hpre := prob_not_nonneg pre
    have hsuf := prob_not_nonneg suf
    simp only [List.map_append, List.map_cons, List.prod_append, List.prod_cons]
    have : (pre.map (fun p => 1 - clamp01 p)).prod *
        ((1 - clamp01 q) * (suf.map (fun p => 1 - clamp01 p)).prod) ≤
        (pre.map (fun p => 1 - clamp01 p)).prod *
        ((1 - clamp01 p) * (suf.map (fun p => 1 - clamp01 p)).prod) := by
      apply mul_le_mul_of_nonneg_left _ hpre
      exact mul_le_mul_of_nonneg_right hfac hsuf
    linarith
  · intro l p
    rw [_combine_convictions_eq, _combine_convictions_eq]
    have hl := prob_not_nonneg l
    have hfac : 1 - clamp01 p ≤ 1 := by
      have := clamp01_nonneg p
      linarith
    have hfac0 : (0:ℚ) ≤ 1 - clamp01 p := by
      have := clamp01_le_one p
      linarith
    simp only [List.map_append, List.prod_append, List.map_cons,
      List.prod_cons, List.map_nil, List.prod_nil, mul_one]
    nlinarith
  · have ha : clamp01 (1/2) = 1/2 := clamp01_eq_self (by norm_num) (by norm_num)
    have hb : clamp01 (3/10) = 3/10 := clamp01_eq_self (by norm_num) (by norm_num)
    norm_num [_combine_convictions, List.foldl, ha, hb]
  · have ha : clamp01 (1/2) = 1/2 := clamp01_eq_self (by norm_num) (by norm_num)
    have hb : clamp01 (3/10) = 3/10 := clamp01_eq_self (by norm_num) (by norm_num)
    have hc : clamp01 (1/5) = 1/5 := clamp01_eq_self (by norm_num) (by norm_num)
    norm_num [_combine_convictions, List.foldl, ha, hb, hc]

/-- Witness for C6: the permutation part at `[0.5,0.3] ~ [0.3,0.5]` and the
monotonicity part at raising `0.3` to `0.5` in second position. -/
theorem combine_monotone_order_independent_witness :
    _combine_convictions [1/2, 3/10] = _combine_convictions [3/10, 1/2] ∧
    _combine_convictions ([1/2] ++ 3/10 :: []) ≤
      _combine_convictions ([1/2] ++ 1/2 :: []) :=
  ⟨combine_monotone_order_independent.1 [1/2, 3/10] [3/10, 1/2]
      (List.Perm.swap (3/10) (1/2) []),
    combine_monotone_order_independent.2.1 [1/2] [] (3/10) (1/2) (by norm_num)⟩

/-! ## Structural lemmas about `aggregate_signals` -/

lemma clamp01_idem (p : ℚ) : clamp01 (clamp01 p) = clamp01 p :=
  clamp01_eq_self (clamp01_nonneg p) (clamp01_le_one p)

lemma combine_singleton_clamp (p : ℚ) :
    _combine_convictions [p] = clamp01 p := by
  rw [_combine_convictions_eq]
  simp

/-- Everything that holds of a merged Signal produced by `process_group`. -/
lemma process_group_eq_some {ctx : MarketContext} {minc : ℚ}
    {key : String × String} {group : List Signal} {m : Signal}
    (h : process_group ctx minc key group = some m) :
    m.symbol = key.1 ∧ m.direction = key.2 ∧
    m.conviction = _combine_convictions (group.map (fun s => s.conviction)) ∧
    m.price = last_price group ∧
    m.reasons = merge_reasons (group.map (fun s => s.reasons)) ∧
    ¬ (ctx.risk_off = true ∧ key.2 = "bull" ∧ m.conviction < 7/10) ∧
    ¬ (ctx.trend = "bull" ∧ key.2 = "bear" ∧ m.conviction < 3/5) ∧
    minc ≤ m.conviction := by
  rcases group with _ | ⟨g0, rest⟩
  · simp [process_group] at h
  · simp only [process_group] at h
    split_ifs at h with h1 h2 h3
    all_goals try cases h
    all_goals refine ⟨rfl, rfl, rfl, rfl, rfl, ?_, ?_, ?_⟩
    · exact h1
    · exact h2
    · exact not_lt.mp h3

lemma mem_aggregate_signals {signals : List Signal} {ctx : MarketContext}
    {minc : ℚ} {m : Signal} (hm : m ∈ aggregate_signals signals ctx minc) :
    ∃ key ∈ keys_in_order signals,
      process_group ctx minc key (group_of signals key) = some m := by
  rw [aggregate_signals, List.mem_filterMap] at hm
  obtain ⟨key, hk, hp⟩ := hm
  exact ⟨key, hk, hp⟩

lemma clamp01_of_one_le {p : ℚ} (h : 1 ≤ p) : clamp01 p = 1 := by
  rw [clamp01, min_eq_left h, max_eq_right (by norm_num : (0:ℚ) ≤ 1)]

lemma last_price_single (s : Signal) : last_price [s] = s.price := by
  cases hp : s.price <;> simp [last_price, hp]

lemma keys_in_order_single (s : Signal) :
    keys_in_order [s] = [(s.symbol, s.direction)] := by
  simp [keys_in_order]

lemma group_of_single_self (s : Signal) :
    group_of [s] (s.symbol, s.direction) = [s] := by
  simp [group_of]

lemma aggregate_single_some {s m : Signal} {ctx : MarketContext} {minc : ℚ}
    (h : process_group ctx minc (s.symbol, s.direction) [s] = some m) :
    aggregate_signals [s] ctx minc = [m] := by
  rw [aggregate_signals, keys_in_order_single]
  simp [group_of_single_self, h]

lemma aggregate_single_none {s : Signal} {ctx : MarketContext} {minc : ℚ}
    (h : process_group ctx minc (s.symbol, s.direction) [s] = none) :
    aggregate_signals [s] ctx minc = [] := by
  rw [aggregate_signals, keys_in_order_single]
  simp [group_of_single_self, h]

lemma process_group_single (s : Signal) (ctx : MarketContext) (minc : ℚ) :
    process_group ctx minc (s.symbol, s.direction) [s] =
      if ctx.risk_off = true ∧ s.direction = "bull" ∧ clamp01 s.conviction < 7/10 then
        none
      else if ctx.trend = "bull" ∧ s.direction = "bear" ∧ clamp01 s.conviction < 3/5 then
        none
      else if clamp01 s.conviction < minc then
        none
      else
        some { kind := none
               bot := bots_label [s]
               symbol := s.symbol
               direction := s.direction
               conviction := clamp01 s.conviction
               reasons := merge_reasons [s.reasons]
               timeframe := s.timeframe
               risk_tag := s.risk_tag
               price := s.price
               extra := merge_extra [s] } := by
  simp only [process_group, List.map_cons, List.map_nil, combine_singleton_clamp,
    last_price_single]

/-- Evaluation of a one-signal batch that passes all gates. -/
lemma aggregate_single_eval (s : Signal) (ctx : MarketContext) (minc : ℚ)
    (h1 : ¬ (ctx.risk_off = true ∧ s.direction = "bull" ∧ clamp01 s.conviction < 7/10))
    (h2 : ¬ (ctx.trend = "bull" ∧ s.direction = "bear" ∧ clamp01 s.conviction < 3/5))
    (h3 : ¬ clamp01 s.conviction < minc) :
    aggregate_signals [s] ctx minc =
      [{ kind := none
         bot := bots_label [s]
         symbol := s.symbol
         direction := s.direction
         conviction := clamp01 s.conviction
         reasons := merge_reasons [s.reasons]
         timeframe := s.timeframe
         risk_tag := s.risk_tag
         price := s.price
         extra := merge_extra [s] }] := by
  apply aggregate_single_some
  rw [process_group_single, if_neg h1, if_neg h2, if_neg h3]

/-- Evaluation of a one-signal batch dropped by one of the gates. -/
lemma aggregate_single_drop (s : Signal) (ctx : MarketContext) (minc : ℚ)
    (h : (ctx.risk_off = true ∧ s.direction = "bull" ∧ clamp01 s.conviction < 7/10) ∨
      (ctx.trend = "bull" ∧ s.direction = "bear" ∧ clamp01 s.conviction < 3/5) ∨
      clamp01 s.conviction < minc) :
    aggregate_signals [s] ctx minc = [] := by
  apply aggregate_single_none
  rw [process_group_single]
  by_cases hc1 : ctx.risk_off = true ∧ s.direction = "bull" ∧ clamp01 s.conviction < 7/10
  · rw [if_pos hc1]
  · rw [if_neg hc1]
    by_cases hc2 : ctx.trend = "bull" ∧ s.direction = "bear" ∧ clamp01 s.conviction < 3/5
    · rw [if_pos hc2]
    · rw [if_neg hc2, if_pos]
      rcases h with h | h | h
      · exact absurd h hc1
      · exact absurd h hc2
      · exact h

/-! ## Concrete fixtures for witnesses and counterexamples -/

/-- A bot-variant Signal fixture (the shape every bot constructs). -/
def mk_sig (sym dir : String) (c : ℚ) (pr : Option ℚ) (rs : List String) : Signal :=
  { kind := none
    bot := "bot_a"
    symbol := sym
    direction := dir
    conviction := c
    reasons := rs
    timeframe := "intraday"
    risk_tag := "normal"
    price := pr
    extra := [] }

def ctx_calm : MarketContext :=
  { as_of := 0, trend := "chop", vol_regime := "normal", risk_off := false }

def ctx_riskoff : MarketContext :=
  { as_of := 0, trend := "chop", vol_regime := "normal", risk_off := true }

def ctx_uptrend : MarketContext :=
  { as_of := 0, trend := "bull", vol_regime := "normal", risk_off := false }

/-- The Signal `aggregate_signals` emits for the one-signal batch `[s]`. -/
def merged_of (s : Signal) : Signal :=
  { kind := none
    bot := bots_label [s]
    symbol := s.symbol
    direction := s.direction
    conviction := clamp01 s.conviction
    reasons := merge_reasons [s.reasons]
    timeframe := s.timeframe
    risk_tag := s.risk_tag
    price := s.price
    extra := merge_extra [s] }

/-! ## Claim C10: output convictions lie in [min_conviction, 1] -/

/-- C10: every Signal in the output of `aggregate_signals` — whatever the
input convictions, even outside `[0,1]` — has conviction at least the
configured floor and at most 1, because member convictions are clamped
inside the combination and sub-floor groups are dropped. -/
theorem aggregate_conviction_bounds (signals : List Signal) (ctx : MarketContext)
    (min_conviction : ℚ) (m : Signal)
    (hm : m ∈ aggregate_signals signals ctx min_conviction) :
    min_conviction ≤ m.conviction ∧ m.conviction ≤ 1 := by
  obtain ⟨key, -, hp⟩ := mem_aggregate_signals hm
  obtain ⟨-, -, hconv, -, -, -, -, hfloor⟩ := process_group_eq_some hp
  refine ⟨hfloor, ?_⟩
  rw [hconv]
  exact _combine_convictions_le_one _

def sig_c10 : Signal := mk_sig "NVDA" "bull" (3/2) none []

/-- Witness for C10 on a batch whose raw conviction 3/2 lies outside [0,1]. -/
theorem aggregate_conviction_bounds_witness :
    2/5 ≤ (merged_of sig_c10).conviction ∧ (merged_of sig_c10).conviction ≤ 1 := by
  have hcl : clamp01 sig_c10.conviction = 1 :=
    clamp01_of_one_le (by norm_num [sig_c10, mk_sig])
  refine aggregate_conviction_bounds [sig_c10] ctx_calm (2/5) (merged_of sig_c10) ?_
  rw [aggregate_single_eval sig_c10 ctx_calm (2/5)
    (by simp [ctx_riskoff, ctx_calm]) (by simp [ctx_calm]) (by rw [hcl]; norm_num)]
  exact List.mem_singleton.mpr rfl

/-! ## Claim C7: regime gating -/

/-- C7: under `risk_off`, a bull group is emitted only with combined
conviction ≥ 0.7; under a bull trend, a bear group only with ≥ 0.6; and on
the fixtures of the spec a 0.65 bull (risk-off) is suppressed, a 0.75 bull is
emitted, a 0.55 bear (bull trend) is suppressed and a 0.65 bear is emitted
— all additionally subject to the global floor (0.4 here). -/
theorem regime_gating_suppresses_weak_contrarians :
    (∀ (signals : List Signal) (ctx : MarketContext) (minc : ℚ) (m : Signal),
      ctx.risk_off = true → m ∈ aggregate_signals signals ctx minc →
      m.direction = "bull" → 7/10 ≤ m.conviction) ∧
    (∀ (signals : List Signal) (ctx : MarketContext) (minc : ℚ) (m : Signal),
      ctx.trend = "bull" → m ∈ aggregate_signals signals ctx minc →
      m.direction = "bear" → 3/5 ≤ m.conviction) ∧
    aggregate_signals [mk_sig "AAPL" "bull" (13/20) none []] ctx_riskoff (2/5) = [] ∧
    (aggregate_signals [mk_sig "AAPL" "bull" (3/4) none []] ctx_riskoff (2/5)).map
      (fun m => m.conviction) = [3/4] ∧
    aggregate_signals [mk_sig "TSLA" "bear" (11/20) none []] ctx_uptrend (2/5) = [] ∧
    (aggregate_signals [mk_sig "TSLA" "bear" (13/20) none []] ctx_uptrend (2/5)).map
      (fun m => m.conviction) = [13/20] := by
  refine ⟨?_, ?_, ?_, ?_, ?_, ?_⟩
  · intro signals ctx minc m hro hm hdir
    obtain ⟨key, -, hp⟩ := mem_aggregate_signals hm
    obtain ⟨-, hd, -, -, -, hgate, -, -⟩ := process_group_eq_some hp
    by_contra hlt
    exact hgate ⟨hro, by rw [← hd, hdir], not_le.mp hlt⟩
  · intro signals ctx minc m htr hm hdir
    obtain ⟨key, -, hp⟩ := mem_aggregate_signals hm
    obtain ⟨-, hd, -, -, -, -, hgate, -⟩ := process_group_eq_some hp
    by_contra hlt
    exact hgate ⟨htr, by rw [← hd, hdir], not_le.mp hlt⟩
  · have hcl : clamp01 (13/20 : ℚ) = 13/20 :=
      clamp01_eq_self (by norm_num) (by norm_num)
    exact aggregate_single_drop _ _ _
      (Or.inl ⟨rfl, rfl, by simp [mk_sig, hcl]; norm_num⟩)
  · have hcl : clamp01 (3/4 : ℚ) = 3/4 :=
      clamp01_eq_self (by norm_num) (by norm_num)
    rw [aggregate_single_eval _ _ _
      (by simp [ctx_riskoff, mk_sig, hcl]; norm_num)
      (by simp [ctx_riskoff]) (by simp [mk_sig, hcl]; norm_num)]
    simp [mk_sig, hcl]
  · have hcl : clamp01 (11/20 : ℚ) = 11/20 :=
      clamp01_eq_self (by norm_num) (by norm_num)
    exact aggregate_single_drop _ _ _
      (Or.inr (Or.inl ⟨rfl, rfl, by simp [mk_sig, hcl]; norm_num⟩))
  · have hcl : clamp01 (13/20 : ℚ) = 13/20 :=
      clamp01_eq_self (by norm_num) (by norm_num)
    rw [aggregate_single_eval _ _ _
      (by simp [ctx_uptrend]) (by simp [ctx_uptrend, mk_sig, hcl]; norm_num)
      (by simp [mk_sig, hcl]; norm_num)]
    simp [mk_sig, hcl]

def sig_c7 : Signal := mk_sig "MSFT" "bull" (4/5) none []

/-- Witness for the universal part of C7: an emitted bull Signal under risk-off
indeed has combined conviction ≥ 0.7. -/
theorem regime_gating_suppresses_weak_contrarians_witness :
    7/10 ≤ (merged_of sig_c7).conviction := by
  have hcl : clamp01 sig_c7.conviction = 4/5 :=
    clamp01_eq_self (by norm_num [sig_c7, mk_sig]) (by norm_num [sig_c7, mk_sig])
  refine regime_gating_suppresses_weak_contrarians.1 [sig_c7] ctx_riskoff (2/5)
    (merged_of sig_c7) rfl ?_ rfl
  rw [aggregate_single_eval sig_c7 ctx_riskoff (2/5)
    (by rw [hcl]; simp [sig_c7, mk_sig]; norm_num) (by simp [ctx_riskoff])
    (by rw [hcl]; norm_num)]
  exact List.mem_singleton.mpr rfl

/-! ## Claim C1: the ingestion boundary -/

/-- C1 (amended): `aggregate_signals` clamps each member conviction into
[0,1] — the combination only ever sees clamped values — and its ingestion
is total, but it performs NO drop of malformed Signals: a Signal with an
empty symbol or empty direction is grouped and emitted like any other
(here shown for a one-signal batch under a benign context). -/
theorem aggregate_no_ingestion_drop :
    (∀ (l : List ℚ), _combine_convictions l = _combine_convictions (l.map clamp01)) ∧
    (∀ (s : Signal) (ctx : MarketContext) (minc : ℚ),
      s.symbol = "" ∨ s.direction = "" →
      ctx.risk_off = false → ctx.trend ≠ "bull" → minc ≤ clamp01 s.conviction →
      (aggregate_signals [s] ctx minc).map (fun m => (m.symbol, m.direction)) =
        [(s.symbol, s.direction)]) := by
  constructor
  · intro l
    rw [_combine_convictions_eq, _combine_convictions_eq, List.map_map]
    have hfun : ((fun p => 1 - clamp01 p) ∘ clamp01) = (fun p : ℚ => 1 - clamp01 p) := by
      funext p
      simp [Function.comp, clamp01_idem]
    rw [hfun]
  · intro s ctx minc _ hro htr hfloor
    rw [aggregate_single_eval s ctx minc (by simp [hro]) (by simp [htr])
      (not_lt.mpr hfloor)]
    rfl

def sig_c1 : Signal := mk_sig "" "bull" (9/10) none []

/-- Counterexample to C1 as stated: a Signal with an empty (missing) symbol
is NOT dropped — `aggregate_signals` emits a merged Signal for the
`("", "bull")` group. -/
theorem aggregate_no_ingestion_drop_counterexample :
    (aggregate_signals [sig_c1] ctx_calm (2/5)).map (fun m => (m.symbol, m.direction)) =
      [("", "bull")] := by
  have hcl : clamp01 sig_c1.conviction = 9/10 :=
    clamp01_eq_self (by norm_num [sig_c1, mk_sig]) (by norm_num [sig_c1, mk_sig])
  rw [aggregate_single_eval sig_c1 ctx_calm (2/5) (by simp [ctx_calm])
    (by simp [ctx_calm]) (by rw [hcl]; norm_num)]
  rfl

def sig_c1w : Signal := mk_sig "" "" 2 none []

/-- Witness for C1 (amended): clamping at work on an out-of-range
conviction, and a Signal missing both symbol and direction still emitted. -/
theorem aggregate_no_ingestion_drop_witness :
    _combine_convictions [2] = _combine_convictions ([2].map clamp01) ∧
    (aggregate_signals [sig_c1w] ctx_calm (2/5)).map (fun m => (m.symbol, m.direction)) =
      [("", "")] :=
  ⟨aggregate_no_ingestion_drop.1 [2],
    aggregate_no_ingestion_drop.2 sig_c1w ctx_calm (2/5) (Or.inl rfl) rfl
      (by simp [ctx_calm])
      (by rw [show clamp01 sig_c1w.conviction = 1 from
          clamp01_of_one_le (by norm_num [sig_c1w, mk_sig])]; norm_num)⟩

/-! ## Two-signal single-group evaluation -/

lemma keys_in_order_pair_same (s1 s2 : Signal)
    (hkey : (s2.symbol, s2.direction) = (s1.symbol, s1.direction)) :
    keys_in_order [s1, s2] = [(s1.symbol, s1.direction)] := by
  simp [keys_in_order, hkey, Prod.ext_iff.mp hkey]

lemma group_of_pair_same (s1 s2 : Signal)
    (hkey : (s2.symbol, s2.direction) = (s1.symbol, s1.direction)) :
    group_of [s1, s2] (s1.symbol, s1.direction) = [s1, s2] := by
  simp [group_of]
  exact ⟨congrArg Prod.fst hkey, congrArg Prod.snd hkey⟩

lemma process_group_pair (s1 s2 : Signal) (ctx : MarketContext) (minc : ℚ) :
    process_group ctx minc (s1.symbol, s1.direction) [s1, s2] =
      if ctx.risk_off = true ∧ s1.direction = "bull" ∧
          _combine_convictions [s1.conviction, s2.conviction] < 7/10 then
        none
      else if ctx.trend = "bull" ∧ s1.direction = "bear" ∧
          _combine_convictions [s1.conviction, s2.conviction] < 3/5 then
        none
      else if _combine_convictions [s1.conviction, s2.conviction] < minc then
        none
      else
        some { kind := none
               bot := bots_label [s1, s2]
               symbol := s1.symbol
               direction := s1.direction
               conviction := _combine_convictions [s1.conviction, s2.conviction]
               reasons := merge_reasons [s1.reasons, s2.reasons]
               timeframe := s1.timeframe
               risk_tag := s1.risk_tag
               price := last_price [s1, s2]
               extra := merge_extra [s1, s2] } := by
  simp only [process_group, List.map_cons, List.map_nil]

/-- Evaluation of a two-signal one-group batch that passes all gates. -/
lemma aggregate_pair_eval (s1 s2 : Signal) (ctx : MarketContext) (minc : ℚ)
    (hkey : (s2.symbol, s2.direction) = (s1.symbol, s1.direction))
    (h1 : ¬ (ctx.risk_off = true ∧ s1.direction = "bull" ∧
      _combine_convictions [s1.conviction, s2.conviction] < 7/10))
    (h2 : ¬ (ctx.trend = "bull" ∧ s1.direction = "bear" ∧
      _combine_convictions [s1.conviction, s2.conviction] < 3/5))
    (h3 : ¬ _combine_convictions [s1.conviction, s2.conviction] < minc) :
    aggregate_signals [s1, s2] ctx minc =
      [{ kind := none
         bot := bots_label [s1, s2]
         symbol := s1.symbol
         direction := s1.direction
         conviction := _combine_convictions [s1.conviction, s2.conviction]
         reasons := merge_reasons [s1.reasons, s2.reasons]
         timeframe := s1.timeframe
         risk_tag := s1.risk_tag
         price := last_price [s1, s2]
         extra := merge_extra [s1, s2] }] := by
  rw [aggregate_signals, keys_in_order_pair_same s1 s2 hkey]
  simp [group_of_pair_same s1 s2 hkey, process_group_pair, if_neg h1, if_neg h2,
    if_neg h3]

/-! ## Claim C2: merged price selection -/

/-- C2 (amended): the price carried by a merged Signal is `last_price` of
its group — the LAST non-None price in visiting (iteration) order — not a
timestamp-based selection; Signals carry no timestamp at all. -/
theorem merged_price_is_last_in_visiting_order (signals : List Signal)
    (ctx : MarketContext) (minc : ℚ) (m : Signal)
    (hm : m ∈ aggregate_signals signals ctx minc) :
    m.price = last_price (group_of signals (m.symbol, m.direction)) := by
  obtain ⟨key, -, hp⟩ := mem_aggregate_signals hm
  obtain ⟨hsym, hdir, -, hprice, -, -, -, -⟩ := process_group_eq_some hp
  rw [hsym, hdir, Prod.mk.eta]
  exact hprice

def sig_c2a : Signal := mk_sig "MSFT" "bull" (1/2) (some 101) []
def sig_c2b : Signal := mk_sig "MSFT" "bull" (1/2) (some 102) []

/-- Counterexample to C2 as stated: the same two-member group, visited in
the two possible orders, yields two different merged prices — the price is
determined by iteration order (last visited non-None price wins), and no
timestamp exists to select by. -/
theorem merged_price_counterexample :
    (aggregate_signals [sig_c2a, sig_c2b] ctx_calm (2/5)).map (fun m => m.price) =
      [some 102] ∧
    (aggregate_signals [sig_c2b, sig_c2a] ctx_calm (2/5)).map (fun m => m.price) =
      [some 101] := by
  have hcl : clamp01 (1/2 : ℚ) = 1/2 := clamp01_eq_self (by norm_num) (by norm_num)
  have hcomb : _combine_convictions [(1:ℚ)/2, 1/2] = 3/4 := by
    rw [_combine_convictions_eq]
    simp only [List.map_cons, List.map_nil, List.prod_cons, List.prod_nil, hcl]
    norm_num
  constructor
  · rw [aggregate_pair_eval sig_c2a sig_c2b ctx_calm (2/5) rfl
      (by simp [ctx_calm]) (by simp [ctx_calm])
      (by simp only [sig_c2a, sig_c2b, mk_sig]; rw [hcomb]; norm_num)]
    simp [last_price, sig_c2a, sig_c2b, mk_sig]
  · rw [aggregate_pair_eval sig_c2b sig_c2a ctx_calm (2/5) rfl
      (by simp [ctx_calm]) (by simp [ctx_calm])
      (by simp only [sig_c2a, sig_c2b, mk_sig]; rw [hcomb]; norm_num)]
    simp [last_price, sig_c2a, sig_c2b, mk_sig]

def sig_c2w : Signal := mk_sig "AMD" "bull" (1/2) (some 7) []

/-- Witness for C2 (amended) on a concrete one-signal group. -/
theorem merged_price_is_last_in_visiting_order_witness :
    (merged_of sig_c2w).price =
      last_price (group_of [sig_c2w] ((merged_of sig_c2w).symbol, (merged_of sig_c2w).direction)) := by
  have hcl : clamp01 sig_c2w.conviction = 1/2 :=
    clamp01_eq_self (by norm_num [sig_c2w, mk_sig]) (by norm_num [sig_c2w, mk_sig])
  refine merged_price_is_last_in_visiting_order [sig_c2w] ctx_calm (2/5)
    (merged_of sig_c2w) ?_
  rw [aggregate_single_eval sig_c2w ctx_calm (2/5) (by simp [ctx_calm])
    (by simp [ctx_calm]) (by rw [hcl]; norm_num)]
  exact List.mem_singleton.mpr rfl

/-! ## Claim C8: reason merging -/

lemma reason_step_aux (rs : List String) :
    ∀ acc : List String,
      ∃ t, rs.foldl (fun acc r => if r ∈ acc then acc else acc ++ [r]) acc = acc ++ t ∧
        t.Sublist rs ∧ t.Nodup ∧ ∀ r ∈ t, r ∉ acc := by
  induction rs with
  | nil =>
    intro acc
    exact ⟨[], by simp, List.nil_sublist _, List.nodup_nil, by simp⟩
  | cons a rs ih =>
    intro acc
    by_cases ha : a ∈ acc
    · obtain ⟨t, ht, hsub, hnd, hnin⟩ := ih acc
      refine ⟨t, ?_, hsub.cons a, hnd, hnin⟩
      simpa [if_pos ha] using ht
    · obtain ⟨t, ht, hsub, hnd, hnin⟩ := ih (acc ++ [a])
      refine ⟨a :: t, ?_, hsub.cons₂ a, ?_, ?_⟩
      · rw [List.foldl_cons, if_neg ha, ht, List.append_assoc]
        rfl
      · exact List.nodup_cons.mpr ⟨fun hat => (hnin a hat) (by simp), hnd⟩
      · intro r hr
        rcases List.mem_cons.mp hr with rfl | hr
        · exact ha
        · exact fun hracc => hnin r hr (by simp [hracc])

lemma reason_step_mem (rs : List String) :
    ∀ (acc : List String) (r : String),
      r ∈ rs.foldl (fun acc r => if r ∈ acc then acc else acc ++ [r]) acc ↔
        r ∈ acc ∨ r ∈ rs := by
  induction rs with
  | nil =>
    intro acc r
    simp
  | cons a rs ih =>
    intro acc r
    rw [List.foldl_cons]
    by_cases ha : a ∈ acc
    · rw [if_pos ha, ih]
      constructor
      · rintro (h | h)
        · exact Or.inl h
        · exact Or.inr (List.mem_cons_of_mem a h)
      · rintro (h | h)
        · exact Or.inl h
        · rcases List.mem_cons.mp h with rfl | h
          · exact Or.inl ha
          · exact Or.inr h
    · rw [if_neg ha, ih]
      simp [List.mem_append, or_assoc]

lemma merge_reasons_aux (rss : List (List String)) :
    ∀ acc : List String,
      ∃ t, rss.foldl
          (fun reasons rs =>
            rs.foldl (fun acc r => if r ∈ acc then acc else acc ++ [r]) reasons)
          acc = acc ++ t ∧
        t.Sublist rss.join ∧ t.Nodup ∧ ∀ r ∈ t, r ∉ acc := by
  induction rss with
  | nil =>
    intro acc
    exact ⟨[], by simp, by simp, List.nodup_nil, by simp⟩
  | cons rs rss ih =>
    intro acc
    obtain ⟨t1, ht1, hsub1, hnd1, hnin1⟩ := reason_step_aux rs acc
    obtain ⟨t2, ht2, hsub2, hnd2, hnin2⟩ := ih (acc ++ t1)
    refine ⟨t1 ++ t2, ?_, ?_, ?_, ?_⟩
    · rw [List.foldl_cons, ht1, ht2, List.append_assoc]
    · simpa using hsub1.append hsub2
    · refine hnd1.append hnd2 ?_
      intro x hx1 hx2
      exact hnin2 x hx2 (by simp [hx1])
    · intro r hr
      rcases List.mem_append.mp hr with hr | hr
      · exact hnin1 r hr
      · exact fun hracc => hnin2 r hr (by simp [hracc])

lemma merge_reasons_mem_aux (rss : List (List String)) :
    ∀ (acc : List String) (r : String),
      r ∈ rss.foldl
          (fun reasons rs =>
            rs.foldl (fun acc r => if r ∈ acc then acc else acc ++ [r]) reasons)
          acc ↔ r ∈ acc ∨ r ∈ rss.join := by
  induction rss with
  | nil =>
    intro acc r
    simp
  | cons rs rss ih =>
    intro acc r
    rw [List.foldl_cons, ih, reason_step_mem]
    simp [or_assoc]

def sig_c8a : Signal := mk_sig "GOOG" "bull" (1/2) none ["a", "b"]
def sig_c8b : Signal := mk_sig "GOOG" "bull" (1/2) none ["b", "c"]

/-- C8: the merged reasons list keeps the first-occurrence
order (it is a sublist of the concatenation), contains exactly the reason
strings of the group with no duplicates, and on the example of the spec, merging
`["a","b"]` then `["b","c"]` — also through `aggregate_signals` — yields
`["a","b","c"]`. -/
theorem merge_reasons_first_occurrence :
    (∀ rss : List (List String), (merge_reasons rss).Nodup) ∧
    (∀ rss : List (List String), (merge_reasons rss).Sublist rss.join) ∧
    (∀ (rss : List (List String)) (r : String),
      r ∈ merge_reasons rss ↔ r ∈ rss.join) ∧
    merge_reasons [["a", "b"], ["b", "c"]] = ["a", "b", "c"] ∧
    (aggregate_signals [sig_c8a, sig_c8b] ctx_calm (2/5)).map (fun m => m.reasons) =
      [["a", "b", "c"]] := by
  have key : ∀ rss : List (List String),
      ∃ t, merge_reasons rss = t ∧ t.Sublist rss.join ∧ t.Nodup := by
    intro rss
    obtain ⟨t, ht, hsub, hnd, -⟩ := merge_reasons_aux rss []
    exact ⟨t, by simpa [merge_reasons] using ht, hsub, hnd⟩
  refine ⟨?_, ?_, ?_, ?_, ?_⟩
  · intro rss
    obtain ⟨t, ht, -, hnd⟩ := key rss
    rw [ht]
    exact hnd
  · intro rss
    obtain ⟨t, ht, hsub, -⟩ := key rss
    rw [ht]
    exact hsub
  · intro rss r
    have := merge_reasons_mem_aux rss [] r
    simpa [merge_reasons] using this
  · rfl
  · have hcl : clamp01 (1/2 : ℚ) = 1/2 := clamp01_eq_self (by norm_num) (by norm_num)
    have hcomb : _combine_convictions [(1:ℚ)/2, 1/2] = 3/4 := by
      rw [_combine_convictions_eq]
      simp only [List.map_cons, List.map_nil, List.prod_cons, List.prod_nil, hcl]
      norm_num
    rw [aggregate_pair_eval sig_c8a sig_c8b ctx_calm (2/5) rfl
      (by simp [ctx_calm]) (by simp [ctx_calm])
      (by simp only [sig_c8a, sig_c8b, mk_sig]; rw [hcomb]; norm_num)]
    simp [sig_c8a, sig_c8b, mk_sig]
    rfl

/-! ## Dispatcher lemmas -/

/-- The `try/except` in `send_telegram_message` swallows every transport
error: the call always returns normally. -/
lemma send_telegram_message_ok (cfg : TelegramConfig) (text : String)
    (transport : Except String Unit) :
    send_telegram_message cfg text transport = Except.ok () := by
  rw [send_telegram_message.eq_def]
  split
  · rfl
  · cases transport <;> rfl

lemma should_send_no_record {d : Dispatcher} {s : Signal} {now : ℚ}
    (hpos : 0 < d.min_alert_interval_seconds)
    (hnone : d._last_sent (Dispatcher._key_for_signal s) = none) :
    Dispatcher._should_send d s now =
      (true, d.set_last (Dispatcher._key_for_signal s) now) := by
  rw [Dispatcher._should_send, if_neg (not_le.mpr hpos)]
  simp only [hnone]

lemma should_send_cooling {d : Dispatcher} {s : Signal} {now last_ts : ℚ}
    (hpos : 0 < d.min_alert_interval_seconds)
    (hsome : d._last_sent (Dispatcher._key_for_signal s) = some last_ts)
    (hwin : now - last_ts < (d.min_alert_interval_seconds : ℚ)) :
    Dispatcher._should_send d s now = (false, d) := by
  rw [Dispatcher._should_send, if_neg (not_le.mpr hpos)]
  simp only [hsome, if_pos hwin]

lemma should_send_elapsed {d : Dispatcher} {s : Signal} {now last_ts : ℚ}
    (hpos : 0 < d.min_alert_interval_seconds)
    (hsome : d._last_sent (Dispatcher._key_for_signal s) = some last_ts)
    (hge : (d.min_alert_interval_seconds : ℚ) ≤ now - last_ts) :
    Dispatcher._should_send d s now =
      (true, d.set_last (Dispatcher._key_for_signal s) now) := by
  rw [Dispatcher._should_send, if_neg (not_le.mpr hpos)]
  simp only [hsome, if_neg (not_lt.mpr hge)]

lemma dispatch_of_should_send_true {d d' : Dispatcher} {s : Signal}
    {ctx : MarketContext} {now : ℚ} {tr : Except String Unit}
    (h : Dispatcher._should_send d s now = (true, d')) :
    Dispatcher.dispatch d s ctx now tr = Except.ok (d', true) := by
  rw [Dispatcher.dispatch, h]
  simp only [send_telegram_message_ok]

lemma dispatch_of_should_send_false {d d' : Dispatcher} {s : Signal}
    {ctx : MarketContext} {now : ℚ} {tr : Except String Unit}
    (h : Dispatcher._should_send d s now = (false, d')) :
    Dispatcher.dispatch d s ctx now tr = Except.ok (d', false) := by
  rw [Dispatcher.dispatch, h]

/-! ## Claim C3: transport failure still advances the cooldown -/

/-- C3: `dispatch` never propagates an error to its caller (the transport
error is caught inside `send_telegram_message`), and a failed transport
attempt still stamps `_last_sent[key]` with the attempt time, so a repeat
dispatch for the same key strictly inside the cooldown window is
suppressed even though the first attempt never delivered. -/
theorem dispatch_transport_failure_caught :
    (∀ (d : Dispatcher) (s : Signal) (ctx : MarketContext) (now : ℚ)
        (tr : Except String Unit),
      ∃ r, Dispatcher.dispatch d s ctx now tr = Except.ok r) ∧
    (∀ (d : Dispatcher) (s : Signal) (ctx ctx2 : MarketContext) (now t : ℚ)
        (e : String) (tr : Except String Unit),
      0 < d.min_alert_interval_seconds →
      d._last_sent (Dispatcher._key_for_signal s) = none →
      t - now < (d.min_alert_interval_seconds : ℚ) →
      Dispatcher.dispatch d s ctx now (Except.error e) =
        Except.ok (d.set_last (Dispatcher._key_for_signal s) now, true) ∧
      Dispatcher.dispatch (d.set_last (Dispatcher._key_for_signal s) now) s ctx2 t tr =
        Except.ok (d.set_last (Dispatcher._key_for_signal s) now, false)) := by
  constructor
  · intro d s ctx now tr
    rcases h : Dispatcher._should_send d s now with ⟨ok, d'⟩
    cases ok
    · exact ⟨(d', false), dispatch_of_should_send_false h⟩
    · exact ⟨(d', true), dispatch_of_should_send_true h⟩
  · intro d s ctx ctx2 now t e tr hpos hnone hwin
    constructor
    · exact dispatch_of_should_send_true (should_send_no_record hpos hnone)
    · refine dispatch_of_should_send_false (should_send_cooling hpos ?_ hwin)
      simp [Dispatcher.set_last]

def cfg_fix : TelegramConfig := { bot_token := "tok", chat_id := "chat" }

def disp_c3 : Dispatcher := Dispatcher.init cfg_fix 600

def sig_c3 : Signal := mk_sig "SPY" "bear" (1/2) none []

/-- Witness for C3: a failed send at t=0 with cooldown 600 suppresses the
retry at t=50. -/
theorem dispatch_transport_failure_caught_witness :
    Dispatcher.dispatch disp_c3 sig_c3 ctx_calm 0 (Except.error "boom") =
      Except.ok (disp_c3.set_last (Dispatcher._key_for_signal sig_c3) 0, true) ∧
    Dispatcher.dispatch (disp_c3.set_last (Dispatcher._key_for_signal sig_c3) 0)
        sig_c3 ctx_calm 50 (Except.ok ()) =
      Except.ok (disp_c3.set_last (Dispatcher._key_for_signal sig_c3) 0, false) := by
  have hmin : disp_c3.min_alert_interval_seconds = 600 := max_eq_right (by norm_num)
  exact dispatch_transport_failure_caught.2 disp_c3 sig_c3 ctx_calm ctx_calm 0 50
    "boom" (Except.ok ()) (by rw [hmin]; norm_num) rfl (by rw [hmin]; norm_num)

/-! ## Claim C4: the cooldown state machine -/

/-- C4: with a positive cooldown interval, a first dispatch for a key (no
record) sends and stamps the key; a repeat strictly inside the window is
suppressed with no state change and no send; a repeat at or after the
window has elapsed sends again and re-stamps the key. -/
theorem dispatcher_cooldown_state_machine (d : Dispatcher) (s : Signal)
    (ctx : MarketContext) (now : ℚ) (tr : Except String Unit)
    (hpos : 0 < d.min_alert_interval_seconds) :
    (d._last_sent (Dispatcher._key_for_signal s) = none →
      Dispatcher.dispatch d s ctx now tr =
        Except.ok (d.set_last (Dispatcher._key_for_signal s) now, true)) ∧
    (∀ last_ts, d._last_sent (Dispatcher._key_for_signal s) = some last_ts →
      now - last_ts < (d.min_alert_interval_seconds : ℚ) →
      Dispatcher.dispatch d s ctx now tr = Except.ok (d, false)) ∧
    (∀ last_ts, d._last_sent (Dispatcher._key_for_signal s) = some last_ts →
      (d.min_alert_interval_seconds : ℚ) ≤ now - last_ts →
      Dispatcher.dispatch d s ctx now tr =
        Except.ok (d.set_last (Dispatcher._key_for_signal s) now, true)) := by
  refine ⟨?_, ?_, ?_⟩
  · intro hnone
    exact dispatch_of_should_send_true (should_send_no_record hpos hnone)
  · intro last_ts hsome hwin
    exact dispatch_of_should_send_false (should_send_cooling hpos hsome hwin)
  · intro last_ts hsome hge
    exact dispatch_of_should_send_true (should_send_elapsed hpos hsome hge)

def disp_c4 : Dispatcher := Dispatcher.init cfg_fix 600

def sig_c4 : Signal :=
  { kind := some "breakout"
    bot := "orb_breakout"
    symbol := "AAPL"
    direction := "bull"
    conviction := 1/2
    reasons := []
    timeframe := "intraday"
    risk_tag := "normal"
    price := none
    extra := [] }

/-- Witness for C4 on the fixture of the spec: key ("AAPL","bull","breakout"),
cooldown 600 — send at t=0, suppressed at t=100, send again at t=700. -/
theorem dispatcher_cooldown_state_machine_witness :
    Dispatcher.dispatch disp_c4 sig_c4 ctx_calm 0 (Except.ok ()) =
      Except.ok (disp_c4.set_last ("AAPL", "bull", "breakout") 0, true) ∧
    Dispatcher.dispatch (disp_c4.set_last ("AAPL", "bull", "breakout") 0)
        sig_c4 ctx_calm 100 (Except.ok ()) =
      Except.ok (disp_c4.set_last ("AAPL", "bull", "breakout") 0, false) ∧
    Dispatcher.dispatch (disp_c4.set_last ("AAPL", "bull", "breakout") 0)
        sig_c4 ctx_calm 700 (Except.ok ()) =
      Except.ok ((disp_c4.set_last ("AAPL", "bull", "breakout") 0).set_last
        ("AAPL", "bull", "breakout") 700, true) := by
  have hmin : disp_c4.min_alert_interval_seconds = 600 := max_eq_right (by norm_num)
  have hpos : 0 < disp_c4.min_alert_interval_seconds := by rw [hmin]; norm_num
  refine ⟨?_, ?_, ?_⟩
  · exact (dispatcher_cooldown_state_machine disp_c4 sig_c4 ctx_calm 0
      (Except.ok ()) hpos).1 rfl
  · exact (dispatcher_cooldown_state_machine
      (disp_c4.set_last ("AAPL", "bull", "breakout") 0) sig_c4 ctx_calm 100
      (Except.ok ()) hpos).2.1 0
      (by simp [Dispatcher.set_last, Dispatcher._key_for_signal, sig_c4])
      (by rw [show (disp_c4.set_last ("AAPL", "bull", "breakout") 0).min_alert_interval_seconds
          = 600 from hmin]; norm_num)
  · exact (dispatcher_cooldown_state_machine
      (disp_c4.set_last ("AAPL", "bull", "breakout") 0) sig_c4 ctx_calm 700
      (Except.ok ()) hpos).2.2 0
      (by simp [Dispatcher.set_last, Dispatcher._key_for_signal, sig_c4])
      (by rw [show (disp_c4.set_last ("AAPL", "bull", "breakout") 0).min_alert_interval_seconds
          = 600 from hmin]; norm_num)

/-! ## Claim C9: the bus -/

lemma publish_foldl (sigs : List Signal) :
    ∀ b : SignalBus, (sigs.foldl SignalBus.publish b)._signals = b._signals ++ sigs := by
  induction sigs with
  | nil =>
    intro b
    simp
  | cons s sigs ih =>
    intro b
    rw [List.foldl_cons, ih]
    simp [SignalBus.publish]

/-- C9: `drain` returns exactly the Signals published since the previous
drain, in publish order, and resets the buffer — Signals published after a
drain form the next batch on their own, and an immediate second drain
returns the empty sequence. -/
theorem bus_drain_returns_and_resets :
    (∀ (b : SignalBus) (sigs : List Signal),
      (sigs.foldl SignalBus.publish (b.drain).2).drain = (sigs, { _signals := [] })) ∧
    (∀ b : SignalBus,
      (b.drain).1 = b._signals ∧ ((b.drain).2).drain = ([], { _signals := [] })) := by
  constructor
  · intro b sigs
    rw [SignalBus.drain, publish_foldl]
    rfl
  · intro b
    exact ⟨rfl, rfl⟩
